import Mathlib

/-!
Verification of the buffered-write / rotate / bundle / upload core of the
`options-shared` repository (`shared_options/services/file_manager.py`,
`shared_options/services/utils.py`, `shared_options/services/shutdown_handler.py`).

The Python code is shallowly embedded:

* A file name is a `List Char` (Python operates on path strings).
* The temp directory and the parent directory are modelled by `FS`:
  association lists from name to content.  `tempFiles` holds the committed
  Numbered Unit files (`NNNNNN.jsonl`), `tmps` holds the dot-prefixed
  write-temporaries, `bundles` holds the bundle JSON-array files.
* A line of a unit file is a `Line α`: blank (`line.strip()` empty),
  `invalid` (`json.loads` raises), or `record r` (`json.loads` succeeds).
  Records themselves are opaque (`α`).
* Nondeterministic environment inputs (results of `shutil.disk_usage`
  checks, the effect of `_emergency_cleanup`, which step of a write raises)
  are passed explicitly as environment values, one per branch the code
  can take.
* Exceptions are `Except Unit`; a Python function that catches everything is
  a total Lean function.
-/

namespace OptionsShared

/-- A path/file name, as the list of its characters. -/
abbrev Name := List Char

/-- One line of a `.jsonl` unit file, as seen by the combine loop in
`FileManager._combine_files`: `blank` when `line.strip()` is empty (the line
is skipped), `invalid` when `json.loads(line)` raises (skipped and logged),
`record r` when it parses to the record `r`. -/
inductive Line (α : Type) where
  | blank
  | invalid
  | record (r : α)
  deriving DecidableEq, Repr

/-- The parseable record of a line, if any. -/
def Line.rec? {α : Type} : Line α → Option α
  | .record r => some r
  | _ => none

/-- On-disk state relevant to one `FileManager`: the Numbered Unit files in
`{base}_tmp/`, the dot-prefixed `.tmp` write-temporaries, and the bundle
files in the parent directory. -/
structure FS (α : Type) where
  tempFiles : List (Name × List (Line α))
  tmps : List (Name × List (Line α))
  bundles : List (Name × List α)
  deriving DecidableEq, Repr

/-- First-match association-list lookup (a directory has distinct names, so
at most one entry per key exists in well-formed states). -/
def lookupA {β : Type} (n : Name) : List (Name × β) → Option β
  | [] => none
  | (m, c) :: rest => if m = n then some c else lookupA n rest

/-- Remove every entry named `n` (models `unlink`). -/
def eraseA {β : Type} (n : Name) (l : List (Name × β)) : List (Name × β) :=
  l.filter (fun p => p.1 ≠ n)

-- ---------------------------------------------------------------------------
-- Decimal digits: Python's `int(stem)` / `f"{index:06d}"` on ASCII digits.
-- ---------------------------------------------------------------------------

/-- Value of an ASCII digit character. -/
def digitVal (c : Char) : Nat := c.toNat - 48

/-- `stem.isdigit()` (restricted to ASCII digit strings, the only stems the
writer ever produces). -/
def isDigits (cs : List Char) : Bool := !cs.isEmpty && cs.all Char.isDigit

/-- `int(stem)` for a digit string: big-endian base-10 accumulation. -/
def parseNat (cs : List Char) : Nat := cs.foldl (fun n c => n * 10 + digitVal c) 0

/-- `int(stem) if stem.isdigit() else None`. -/
def stemValue? (cs : List Char) : Option Nat :=
  if isDigits cs then some (parseNat cs) else none

/-- Decimal digit characters of `n`, most significant first (fuel-based so
that it reduces structurally; `natToChars` supplies enough fuel). -/
def natToCharsAux : Nat → Nat → List Char
  | 0, _ => []
  | fuel + 1, n =>
    if n < 10 then [Nat.digitChar n]
    else natToCharsAux fuel (n / 10) ++ [Nat.digitChar (n % 10)]

/-- Decimal representation of `n` (no padding), e.g. `natToChars 7 = ['7']`. -/
def natToChars (n : Nat) : List Char := natToCharsAux (n + 1) n

/-- `f"{n:06d}"`: the decimal digits of `n`, left-padded with `'0'` to width
six (wider numbers are not truncated). -/
def pad6 (n : Nat) : List Char :=
  let ds := natToChars n
  List.replicate (6 - ds.length) '0' ++ ds

/-- The final name of Numbered Unit `i`: `f"{i:06d}.jsonl"`. -/
def unitName (i : Nat) : Name := pad6 i ++ ".jsonl".data

/-- The write-temporary sibling: `f".{i:06d}.jsonl.tmp"`. -/
def tmpName (i : Nat) : Name := '.' :: (pad6 i ++ ".jsonl.tmp".data)

/-- Does a name match `glob("*.jsonl")`? (ends with `.jsonl`). -/
def isJsonl (f : Name) : Bool :=
  decide (6 ≤ f.length) && decide (f.drop (f.length - 6) = ".jsonl".data)

/-- `Path(f).stem` for a `*.jsonl` match: the name minus the final
`.jsonl` extension. -/
def stemOf (f : Name) : List Char := f.take (f.length - 6)

/-- The unit index denoted by a file name, when it is a digit-stem `.jsonl`
file (`FileManager._init_temp_counter` considers exactly these). -/
def fileIndex? (f : Name) : Option Nat :=
  if isJsonl f then stemValue? (stemOf f) else none

/-- `FileManager._init_temp_counter`: over the `glob("*.jsonl")` matches, the
largest integer value of a digit stem, `0` when the glob is empty. -/
def init_temp_counter (files : List Name) : Nat :=
  let existing := files.filter isJsonl
  if existing.isEmpty then 0
  else
    existing.foldl
      (fun m f =>
        match stemValue? (stemOf f) with
        | some idx => if idx > m then idx else m
        | none => m)
      0

-- ---------------------------------------------------------------------------
-- Sorting file names (Python `sorted(...)` over path strings).
-- ---------------------------------------------------------------------------

/-- Strict lexicographic comparison of names, character by character
(Python string `<`). -/
def lexLt : List Char → List Char → Bool
  | [], [] => false
  | [], _ :: _ => true
  | _ :: _, [] => false
  | a :: as, b :: bs => if a < b then true else if b < a then false else lexLt as bs

/-- `a` sorts no later than `b`. -/
def lexLe (a b : List Char) : Bool := !lexLt b a

/-- Insert into a lexicographically sorted list. -/
def insertSorted (x : Name) : List Name → List Name
  | [] => [x]
  | y :: ys => if lexLe x y then x :: y :: ys else y :: insertSorted x ys

/-- `sorted(names)`: sort names lexicographically (insertion sort; on the
distinct names a directory holds this agrees with any sort by the same
order). -/
def sortList (l : List Name) : List Name := l.foldr insertSorted []

-- ---------------------------------------------------------------------------
-- The Atomic File Writer: `FileManager._write_temp_file_atomic`.
-- ---------------------------------------------------------------------------

/-- Where, if anywhere, an exception is raised during one run of
`_write_temp_file_atomic` (and of the bundle write, which follows the same
pattern): while serializing/writing line `k` of the temp file, at the
`os.fsync` of the file, at the `os.replace` rename, at the `os.fsync` of the
directory, or after the rename (the size-logging `stat` call, still inside
the `try`). -/
inductive WriteOutcome where
  | success
  | failSerialize (k : Nat)
  | failFsyncFile
  | failRename
  | failFsyncDir
  | failPost
  deriving DecidableEq, Repr

/-- Outcomes the code lets escape from `_write_temp_file_atomic` (the two
fsync failures are caught inside and logged as non-fatal). -/
def WriteOutcome.fatal : WriteOutcome → Bool
  | .failSerialize _ => true
  | .failRename => true
  | .failPost => true
  | _ => false

/-- `open(tmp, "w")` + write: create (truncating any stale file of the same
name) the temporary with the given content. -/
def setTmp {α : Type} (n : Name) (c : List (Line α)) (fs : FS α) : FS α :=
  { fs with tmps := (n, c) :: eraseA n fs.tmps }

/-- `tmp_path.unlink()`. -/
def delTmp {α : Type} (n : Name) (fs : FS α) : FS α :=
  { fs with tmps := eraseA n fs.tmps }

/-- `os.replace(tmp, final)`: the final name receives exactly the temporary's
current content (replacing any stale file), and the temporary disappears. -/
def renameTmpToUnit {α : Type} (tmp final : Name) (fs : FS α) : FS α :=
  match lookupA tmp fs.tmps with
  | some c =>
    { fs with
      tmps := eraseA tmp fs.tmps
      tempFiles := (final, c) :: eraseA final fs.tempFiles }
  | none => fs

/-- The mutable state of one `FileManager`: the in-memory buffer, the unit
counter `_temp_file_counter`, the stop event, and the disk. -/
structure MState (α : Type) where
  buffer : List α
  counter : Nat
  stopSet : Bool
  fs : FS α
  deriving DecidableEq, Repr

/-- `FileManager._write_temp_file_atomic(entries)`.  The counter is
incremented before the `try` block, so it stays incremented on failure.
Serialization of a record to one JSON line is assumed to round-trip
(`json.dumps` output parses back with `json.loads`), so a written line is
`Line.record entry`.  Returns the propagated exception, if any, with the
post state. -/
def write_temp_file_atomic {α : Type} (out : WriteOutcome) (entries : List α)
    (s : MState α) : Except Unit Unit × MState α :=
  let idx := s.counter + 1
  let s := { s with counter := idx }
  let final := unitName idx
  let tmp := tmpName idx
  match out with
  | .failSerialize k =>
    -- exception after k lines: the partial temp file is unlinked, re-raise
    let fs1 := setTmp tmp ((entries.take k).map .record) s.fs
    (.error (), { s with fs := delTmp tmp fs1 })
  | .failFsyncFile =>
    -- fsync failure is caught and logged; the write continues and commits
    let fs1 := setTmp tmp (entries.map .record) s.fs
    (.ok (), { s with fs := renameTmpToUnit tmp final fs1 })
  | .failRename =>
    -- the fully written temp file is unlinked, re-raise
    let fs1 := setTmp tmp (entries.map .record) s.fs
    (.error (), { s with fs := delTmp tmp fs1 })
  | .failFsyncDir =>
    -- directory fsync failure is caught and logged; the unit is committed
    let fs1 := setTmp tmp (entries.map .record) s.fs
    (.ok (), { s with fs := renameTmpToUnit tmp final fs1 })
  | .failPost =>
    -- exception after the rename (size logging): unit committed, tmp gone
    -- (renamed away, so the cleanup's `tmp_path.exists()` is false), re-raise
    let fs1 := setTmp tmp (entries.map .record) s.fs
    (.error (), { s with fs := renameTmpToUnit tmp final fs1 })
  | .success =>
    let fs1 := setTmp tmp (entries.map .record) s.fs
    (.ok (), { s with fs := renameTmpToUnit tmp final fs1 })

-- ---------------------------------------------------------------------------
-- The Buffered Manager: `add_entry`, `_flush_locked`, `close`.
-- ---------------------------------------------------------------------------

/-- The configuration consulted by `add_entry` (`self.max_buffer_size`). -/
structure Config where
  maxBufferSize : Nat
  deriving DecidableEq, Repr

/-- Environment of one flush attempt: the two `_has_free_space` verdicts
(`ok` against `low_space_bytes` before, and again after cleanup), the
file-system effect of `_emergency_cleanup`, and where the unit write raises,
if anywhere. -/
structure FlushEnv (α : Type) where
  okBefore : Bool
  cleanup : FS α → FS α
  okAfter : Bool
  writeOut : WriteOutcome

/-- The write attempt inside `_flush_locked`: on an `OSError` or any other
exception from `_write_temp_file_atomic`, the snapshotted entries are put
back at the front of the buffer (`self._buffer = entries + self._buffer`). -/
def attemptWrite {α : Type} (env : FlushEnv α) (entries : List α) (s : MState α) :
    MState α :=
  match write_temp_file_atomic env.writeOut entries s with
  | (.ok _, s') => s'
  | (.error _, s') => { s' with buffer := entries ++ s'.buffer }

/-- `FileManager._flush_locked` (called with `self._lock` held): snapshot and
clear the buffer; if disk space is low, run emergency cleanup and re-check,
restoring the snapshot to the front of the buffer when space stays low;
otherwise attempt the atomic unit write, restoring the snapshot on any
exception.  Never lets an exception escape. -/
def flush_locked {α : Type} (env : FlushEnv α) (s : MState α) : MState α :=
  if s.buffer.isEmpty then s
  else
    let entries := s.buffer
    let s1 := { s with buffer := [] }
    if env.okBefore then attemptWrite env entries s1
    else
      let s2 := { s1 with fs := env.cleanup s1.fs }
      if env.okAfter then attemptWrite env entries s2
      else { s2 with buffer := entries ++ s2.buffer }

/-- `FileManager.add_entry(entry)` (entry already in mapping form): append
under lock; at or above `max_buffer_size`, flush synchronously, catching any
exception so nothing bubbles to the producer. -/
def add_entry {α : Type} (cfg : Config) (env : FlushEnv α) (a : α) (s : MState α) :
    MState α :=
  let s := { s with buffer := s.buffer ++ [a] }
  if cfg.maxBufferSize ≤ s.buffer.length then flush_locked env s else s

/-- `FileManager.close()`: under lock, return at once if the stop event is
already set, else set it; then perform the final flush (best-effort) and
join the background thread.  The two booleans record whether the final
flush was attempted and whether the thread was joined. -/
def close {α : Type} (env : FlushEnv α) (s : MState α) : MState α × Bool × Bool :=
  if s.stopSet then (s, false, false)
  else
    let s1 := { s with stopSet := true }
    (flush_locked env s1, true, true)

/-- `ShutdownManager.stop_all` as seen by a `FileManager` constructed with
the shared stop event: `stop_all` first sets the shared event
(`cls._stop_event.set()`), then invokes the registered callback
`lambda reason=None: self.close()`. -/
def stop_all_then_close {α : Type} (env : FlushEnv α) (s : MState α) :
    MState α × Bool × Bool :=
  close env { s with stopSet := true }

/-- Initial state of a freshly constructed `FileManager` over a temp
directory already holding `files`: empty buffer, counter seeded by
`_init_temp_counter`, stop event clear. -/
def initState {α : Type} (files : List (Name × List (Line α))) : MState α :=
  { buffer := []
    counter := init_temp_counter (files.map Prod.fst)
    stopSet := false
    fs := { tempFiles := files, tmps := [], bundles := [] } }

-- ---------------------------------------------------------------------------
-- The Bundle Combiner: `_combine_files`, `combine_temp_files`,
-- `combine_and_rotate`.
-- ---------------------------------------------------------------------------

/-- The records of one unit file, as read by the combine loop: blank lines
and lines that fail `json.loads` are skipped, parsed records are kept in
line order. -/
def readUnit {α : Type} (ls : List (Line α)) : List α := ls.filterMap Line.rec?

/-- The read loop of `_combine_files`: for each listed file, read its
parseable records (a file that cannot be opened — e.g. already removed — is
skipped), then, when `delete` is set, unlink it before moving to the next
file.  Returns the accumulated records with the post-read file system. -/
def readLoop {α : Type} (delete : Bool) : List Name → FS α → List α × FS α
  | [], fs => ([], fs)
  | n :: rest, fs =>
    match lookupA n fs.tempFiles with
    | some c =>
      let fs1 := if delete then { fs with tempFiles := eraseA n fs.tempFiles } else fs
      let (es, fs2) := readLoop delete rest fs1
      (readUnit c ++ es, fs2)
    | none => readLoop delete rest fs

/-- Environment of one `_combine_files` run: the two disk-space verdicts,
the cleanup effect, whether the atomic bundle write succeeds (its own
exceptions are caught inside `_combine_files`, which then returns `None`
after unlinking the bundle temp), and the timestamped bundle name. -/
structure CombineEnv (α : Type) where
  okBefore : Bool
  cleanup : FS α → FS α
  okAfter : Bool
  writeOk : Bool
  bundleName : Name

/-- The atomic bundle write at the end of `_combine_files`: on success the
bundle file appears, fully written, under its final name; on an exception
the temp is unlinked and `None` is returned (the disk is unchanged). -/
def writeBundle {α : Type} (env : CombineEnv α) (entries : List α) (fs : FS α) :
    Option Name × FS α :=
  if env.writeOk then
    (some env.bundleName,
      { fs with bundles := (env.bundleName, entries) :: eraseA env.bundleName fs.bundles })
  else (none, fs)

/-- `FileManager._combine_files(file_list, delete)`: empty list → `None`;
read (and, when `delete`, unlink) each listed unit; no parseable record →
`None`; then check disk space, running emergency cleanup and re-checking on
a low verdict, aborting with `None` when space stays low; finally write the
bundle atomically. -/
def combine_files {α : Type} (env : CombineEnv α) (fileList : List Name)
    (delete : Bool) (fs : FS α) : Option Name × FS α :=
  if fileList.isEmpty then (none, fs)
  else
    let r := readLoop delete fileList fs
    if r.1.isEmpty then (none, r.2)
    else
      if env.okBefore then writeBundle env r.1 r.2
      else
        let fs2 := env.cleanup r.2
        if env.okAfter then writeBundle env r.1 fs2
        else (none, fs2)

/-- `FileManager.combine_temp_files()`: combine all `*.jsonl` units of the
temp directory, in sorted (filename) order, deleting sources; a `some`
result is the bundle that was created and queued for background send. -/
def combine_temp_files {α : Type} (env : CombineEnv α) (fs : FS α) :
    Option Name × FS α :=
  let names := sortList (fs.tempFiles.map Prod.fst)
  if names.isEmpty then (none, fs)
  else combine_files env names true fs

/-- `FileManager.combine_and_rotate(bundle_limit)`: like
`combine_temp_files` but over only the first `limit` sorted names. -/
def combine_and_rotate {α : Type} (env : CombineEnv α) (limit : Nat) (fs : FS α) :
    Option Name × FS α :=
  let names := sortList (fs.tempFiles.map Prod.fst)
  if names.isEmpty then (none, fs)
  else combine_files env (names.take limit) true fs

-- ---------------------------------------------------------------------------
-- The Background Uploader: `utils.try_send` / `FileManager._send_background`.
-- ---------------------------------------------------------------------------

/-- Outcome of the `requests.post` upload attempt in `utils.try_send`: an
HTTP response with a status code, or a raised exception (network error,
timeout, unreadable file). -/
inductive SendOutcome where
  | status (code : Nat)
  | exn
  deriving DecidableEq, Repr

/-- `utils.try_send(filepath)` over the directory listing `files`: on a
response with `status_code == 200` the file is unlinked; on any other status
code the file is kept ("Server error ...: keeping file"); on an exception
the file is kept.  Every exception is caught, so the function is total. -/
def try_send (out : SendOutcome) (files : List Name) (fp : Name) : List Name :=
  match out with
  | .status code => if code = 200 then files.filter (fun n => n ≠ fp) else files
  | .exn => files

-- ---------------------------------------------------------------------------
-- Specification-side expressions and concrete scenario values.
-- ---------------------------------------------------------------------------

/-- Stated bundle content (spec §3 invariant, spec §4.3): the concatenation
of the parseable records of the temp directory's unit files, in sorted
filename order, in line order. -/
def bundleSpec {α : Type} (fs : FS α) : List α :=
  ((sortList (fs.tempFiles.map Prod.fst)).map
      (fun n => readUnit ((lookupA n fs.tempFiles).getD []))).flatten

/-- A fault-free flush environment: both disk checks pass and the unit write
succeeds. -/
def envOK {α : Type} : FlushEnv α :=
  { okBefore := true, cleanup := id, okAfter := true, writeOut := .success }

/-- `max_buffer_size=2`. -/
def cfg2 : Config := { maxBufferSize := 2 }

/-- A combine environment in persistent low-disk-space condition: both
`_has_free_space` checks report low, `_emergency_cleanup` frees nothing. -/
def cenvLow : CombineEnv Nat :=
  { okBefore := false, cleanup := id, okAfter := false, writeOk := true
    bundleName := "option_data_bundle_t.json".data }

/-- A fault-free combine environment. -/
def cenvOK : CombineEnv Nat :=
  { okBefore := true, cleanup := id, okAfter := true, writeOk := true
    bundleName := "option_data_bundle_t.json".data }

/-- Two Numbered Units, one record each (C1's failing input). -/
def fsTwoUnits : FS Nat :=
  { tempFiles := [("000001.jsonl".data, [.record 10]), ("000002.jsonl".data, [.record 20])]
    tmps := [], bundles := [] }

/-- Two units with one parseable record each plus corrupt/blank lines
(C5's witness input). -/
def fsMixed : FS Nat :=
  { tempFiles := [("000002.jsonl".data, [.blank, .record 2]),
                  ("000001.jsonl".data, [.record 1, .invalid])]
    tmps := [], bundles := [] }

/-- A directory whose only unit has no parseable line (C9's witness input). -/
def fsCorrupt : FS Nat :=
  { tempFiles := [("000001.jsonl".data, [.invalid, .blank])]
    tmps := [], bundles := [] }

/-- The empty directory state. -/
def fsEmpty : FS Nat := { tempFiles := [], tmps := [], bundles := [] }

/-- C6 scenario, first step: one record added to a fresh manager over an
empty temp directory, `max_buffer_size=2`, fault-free environment. -/
def scenario1 {α : Type} (r1 : α) : MState α :=
  add_entry cfg2 envOK r1 (initState [])

/-- C6 scenario after the second `add_entry` (which reaches the threshold
and flushes synchronously). -/
def scenario2 {α : Type} (r1 r2 : α) : MState α :=
  add_entry cfg2 envOK r2 (scenario1 r1)

/-- C6 scenario after the third `add_entry`. -/
def scenario3 {α : Type} (r1 r2 r3 : α) : MState α :=
  add_entry cfg2 envOK r3 (scenario2 r1 r2)

/-- C6 scenario after the final `close()`. -/
def scenario4 {α : Type} (r1 r2 r3 : α) : MState α :=
  (close envOK (scenario3 r1 r2 r3)).1

/-- A flush environment whose unit write fails at the atomic rename. -/
def envFailRename : FlushEnv Nat :=
  { okBefore := true, cleanup := id, okAfter := true, writeOut := .failRename }

/-- A one-record manager state used as a concrete flush-failure input. -/
def sOneRecord : MState Nat :=
  { buffer := [5], counter := 0, stopSet := false, fs := fsEmpty }

-- ---------------------------------------------------------------------------
-- Lemmas: decimal digits and unit names.
-- ---------------------------------------------------------------------------

theorem digitVal_digitChar {m : Nat} (h : m < 10) : digitVal (Nat.digitChar m) = m := by
  interval_cases m <;> decide

theorem isDigit_digitChar {m : Nat} (h : m < 10) : (Nat.digitChar m).isDigit = true := by
  interval_cases m <;> decide

theorem parseNat_append_singleton (xs : List Char) (c : Char) :
    parseNat (xs ++ [c]) = 10 * parseNat xs + digitVal c := by
  simp [parseNat, List.foldl_append, Nat.mul_comm]

theorem natToCharsAux_spec : ∀ (fuel n : Nat), n < fuel →
    natToCharsAux fuel n ≠ [] ∧ (natToCharsAux fuel n).all Char.isDigit = true ∧
      parseNat (natToCharsAux fuel n) = n := by
  intro fuel
  induction fuel with
  | zero => intro n h; omega
  | succ fuel ih =>
    intro n h
    by_cases h10 : n < 10
    · simp only [natToCharsAux, if_pos h10]
      refine ⟨by simp, ?_, ?_⟩
      · simp [List.all_cons, isDigit_digitChar h10]
      · simp [parseNat, digitVal_digitChar h10]
    · have hdiv : n / 10 < n := Nat.div_lt_self (by omega) (by omega)
      have hfuel : n / 10 < fuel := by omega
      obtain ⟨hne, hdig, hval⟩ := ih (n / 10) hfuel
      simp only [natToCharsAux, if_neg h10]
      refine ⟨by simp, ?_, ?_⟩
      · simp only [List.all_append, hdig, Bool.true_and, List.all_cons, List.all_nil,
          Bool.and_true]
        exact isDigit_digitChar (Nat.mod_lt n (by omega))
      · rw [parseNat_append_singleton, hval, digitVal_digitChar (Nat.mod_lt n (by omega))]
        exact Nat.div_add_mod n 10

theorem natToChars_ne_nil (n : Nat) : natToChars n ≠ [] :=
  (natToCharsAux_spec (n + 1) n (Nat.lt_succ_self n)).1

theorem natToChars_all_digits (n : Nat) : (natToChars n).all Char.isDigit = true :=
  (natToCharsAux_spec (n + 1) n (Nat.lt_succ_self n)).2.1

theorem parseNat_natToChars (n : Nat) : parseNat (natToChars n) = n :=
  (natToCharsAux_spec (n + 1) n (Nat.lt_succ_self n)).2.2

theorem parseNat_replicate_zero (k : Nat) (ds : List Char) :
    parseNat (List.replicate k '0' ++ ds) = parseNat ds := by
  induction k with
  | zero => simp
  | succ k ih =>
    simpa [List.replicate_succ, parseNat, digitVal] using ih

theorem pad6_ne_nil (n : Nat) : pad6 n ≠ [] := by
  simp [pad6, List.append_eq_nil, natToChars_ne_nil n]

theorem isDigits_pad6 (n : Nat) : isDigits (pad6 n) = true := by
  simp only [isDigits, Bool.and_eq_true, Bool.not_eq_true']
  constructor
  · cases hp : pad6 n with
    | nil => exact absurd hp (pad6_ne_nil n)
    | cons a l => rfl
  · rw [pad6]
    simp only [List.all_append, Bool.and_eq_true]
    constructor
    · simp only [List.all_eq_true]
      intro c hc
      have hc0 := List.eq_of_mem_replicate hc
      subst hc0; decide
    · exact natToChars_all_digits n

theorem stemValue?_pad6 (n : Nat) : stemValue? (pad6 n) = some n := by
  rw [stemValue?, if_pos (isDigits_pad6 n)]
  simp [pad6, parseNat_replicate_zero, parseNat_natToChars]

theorem fileIndex?_unitName (n : Nat) : fileIndex? (unitName n) = some n := by
  have hlen : (unitName n).length = (pad6 n).length + 6 := by
    simp [unitName]
  have hdrop : (unitName n).drop ((unitName n).length - 6) = ".jsonl".data := by
    rw [hlen, Nat.add_sub_cancel, unitName, List.drop_left]
  have htake : stemOf (unitName n) = pad6 n := by
    rw [stemOf, hlen, Nat.add_sub_cancel, unitName, List.take_left]
  have hj : isJsonl (unitName n) = true := by
    simp only [isJsonl, hlen, Nat.add_sub_cancel, Bool.and_eq_true, decide_eq_true_eq]
    constructor
    · omega
    · simp only [unitName]
      exact List.drop_left _ _
  rw [fileIndex?, if_pos hj, htake, stemValue?_pad6]

-- ---------------------------------------------------------------------------
-- Lemmas: counter seeding.
-- ---------------------------------------------------------------------------

theorem init_counter_step (files : List Name) : ∀ acc : Nat,
    (files.filter isJsonl).foldl
        (fun m f =>
          match stemValue? (stemOf f) with
          | some idx => if idx > m then idx else m
          | none => m)
        acc
      = (files.filterMap fileIndex?).foldl Nat.max acc := by
  induction files with
  | nil => intro acc; rfl
  | cons f rest ih =>
    intro acc
    by_cases hj : isJsonl f
    · rw [List.filter_cons_of_pos hj, List.foldl_cons]
      rw [List.filterMap_cons]
      rw [fileIndex?, if_pos hj]
      cases hv : stemValue? (stemOf f) with
      | none => simpa using ih acc
      | some idx =>
        simp only [List.foldl_cons]
        rw [ih]
        congr 1
        rcases Nat.lt_or_ge acc idx with h | h
        · simp [h, Nat.max_eq_right (Nat.le_of_lt h)]
        · have : ¬ idx > acc := by omega
          simp [this, Nat.max_eq_left h]
    · rw [List.filter_cons_of_neg hj, List.filterMap_cons]
      rw [fileIndex?, if_neg hj]
      exact ih acc

theorem init_temp_counter_eq_max (files : List Name) :
    init_temp_counter files = (files.filterMap fileIndex?).foldl Nat.max 0 := by
  rw [init_temp_counter]
  by_cases he : (files.filter isJsonl).isEmpty
  · rw [if_pos he]
    have hnil : files.filter isJsonl = [] := List.isEmpty_iff.mp he
    have : files.filterMap fileIndex? = [] := by
      rw [List.filterMap_eq_nil_iff]
      intro f hf
      rw [fileIndex?]
      have : ¬ isJsonl f := by
        intro hj
        have : f ∈ files.filter isJsonl := List.mem_filter.mpr ⟨hf, hj⟩
        simp [hnil] at this
      rw [if_neg this]
    rw [this]; rfl
  · rw [if_neg he]
    exact init_counter_step files 0

theorem foldl_max_le_acc (l : List Nat) : ∀ acc : Nat, acc ≤ l.foldl Nat.max acc := by
  induction l with
  | nil => intro acc; exact Nat.le_refl acc
  | cons x rest ih =>
    intro acc
    exact Nat.le_trans (Nat.le_max_left acc x) (ih (Nat.max acc x))

theorem foldl_max_bound {l : List Nat} {v : Nat} (h : v ∈ l) :
    ∀ acc : Nat, v ≤ l.foldl Nat.max acc := by
  induction l with
  | nil => cases h
  | cons x rest ih =>
    intro acc
    rcases List.mem_cons.mp h with rfl | hmem
    · exact Nat.le_trans (Nat.le_max_right acc v) (foldl_max_le_acc rest _)
    · exact ih hmem _

-- ---------------------------------------------------------------------------
-- Lemmas: association-list lookup.
-- ---------------------------------------------------------------------------

theorem lookupA_eraseA_ne {β : Type} {m n : Name} (l : List (Name × β)) (h : m ≠ n) :
    lookupA m (eraseA n l) = lookupA m l := by
  induction l with
  | nil => rfl
  | cons p rest ih =>
    by_cases hp : p.1 = n
    · have : ¬ p.1 = m := by rw [hp]; exact fun he => h he.symm
      rw [eraseA, List.filter_cons_of_neg (by simp [hp])]
      rw [show lookupA m (p :: rest) = lookupA m rest by
        cases p with
        | mk a b => simp only [lookupA]; rw [if_neg (by simpa [hp] using this)]]
      exact ih
    · rw [eraseA, List.filter_cons_of_pos (by simpa using hp)]
      cases p with
      | mk a b =>
        simp only [lookupA]
        by_cases ha : a = m
        · rw [if_pos ha, if_pos ha]
        · rw [if_neg ha, if_neg ha]
          exact ih

theorem lookupA_eraseA_self {β : Type} {n : Name} (l : List (Name × β)) :
    lookupA n (eraseA n l) = none := by
  induction l with
  | nil => rfl
  | cons p rest ih =>
    by_cases hp : p.1 = n
    · rw [eraseA, List.filter_cons_of_neg (by simpa)]
      exact ih
    · rw [eraseA, List.filter_cons_of_pos (by simpa using hp)]
      cases p with
      | mk a b =>
        simp only [lookupA]
        rw [if_neg (by simpa using hp)]
        exact ih

theorem lookupA_mem {β : Type} {n : Name} {c : β} :
    ∀ {l : List (Name × β)}, lookupA n l = some c → (n, c) ∈ l := by
  intro l
  induction l with
  | nil => intro h; cases h
  | cons p rest ih =>
    intro h
    cases p with
    | mk a b =>
      by_cases ha : a = n
      · rw [lookupA, if_pos ha] at h
        cases h
        subst ha
        exact List.mem_cons_self _ _
      · rw [lookupA, if_neg ha] at h
        exact List.mem_cons_of_mem _ (ih h)

-- ---------------------------------------------------------------------------
-- Lemmas: sorting.
-- ---------------------------------------------------------------------------

theorem mem_insertSorted {a x : Name} : ∀ {l : List Name},
    a ∈ insertSorted x l ↔ a = x ∨ a ∈ l := by
  intro l
  induction l with
  | nil => simp [insertSorted]
  | cons y ys ih =>
    by_cases h : lexLe x y
    · rw [insertSorted, if_pos h]
      simp
    · rw [insertSorted, if_neg h]
      simp only [List.mem_cons, ih]
      tauto

theorem nodup_insertSorted {x : Name} : ∀ {l : List Name},
    x ∉ l → l.Nodup → (insertSorted x l).Nodup := by
  intro l
  induction l with
  | nil => intro _ _; simp [insertSorted]
  | cons y ys ih =>
    intro hx hnd
    have hxy : x ≠ y := fun he => hx (he ▸ List.mem_cons_self y ys)
    have hxys : x ∉ ys := fun hm => hx (List.mem_cons_of_mem _ hm)
    rcases List.nodup_cons.mp hnd with ⟨hy, hys⟩
    by_cases h : lexLe x y
    · rw [insertSorted, if_pos h]
      exact List.nodup_cons.mpr ⟨by simp [hxy, hxys], hnd⟩
    · rw [insertSorted, if_neg h]
      refine List.nodup_cons.mpr ⟨?_, ih hxys hys⟩
      rw [mem_insertSorted]
      rintro (he | hm)
      · exact hxy he.symm
      · exact hy hm

theorem mem_sortList {a : Name} : ∀ {l : List Name}, a ∈ sortList l ↔ a ∈ l := by
  intro l
  induction l with
  | nil => simp [sortList]
  | cons x xs ih =>
    show a ∈ insertSorted x (sortList xs) ↔ _
    rw [mem_insertSorted, ih]
    simp

theorem nodup_sortList : ∀ {l : List Name}, l.Nodup → (sortList l).Nodup := by
  intro l
  induction l with
  | nil => intro _; simp [sortList]
  | cons x xs ih =>
    intro hnd
    rcases List.nodup_cons.mp hnd with ⟨hx, hxs⟩
    show (insertSorted x (sortList xs)).Nodup
    exact nodup_insertSorted (fun hm => hx (mem_sortList.mp hm)) (ih hxs)

-- ---------------------------------------------------------------------------
-- Lemmas: the combine read loop.
-- ---------------------------------------------------------------------------

/-- After the read loop the bundle directory and the temporaries are
untouched (the loop only reads and possibly unlinks unit files). -/
theorem readLoop_bundles_tmps {α : Type} (d : Bool) : ∀ (names : List Name) (fs : FS α),
    (readLoop d names fs).2.bundles = fs.bundles ∧ (readLoop d names fs).2.tmps = fs.tmps := by
  intro names
  induction names with
  | nil => intro fs; exact ⟨rfl, rfl⟩
  | cons n rest ih =>
    intro fs
    rw [readLoop]
    cases hl : lookupA n fs.tempFiles with
    | none => exact ih fs
    | some c =>
      cases d with
      | false => simpa using ih fs
      | true => simpa using ih { fs with tempFiles := eraseA n fs.tempFiles }

theorem readLoop_cons_some {α : Type} {d : Bool} {n : Name} {rest : List Name}
    {fs : FS α} {c : List (Line α)} (hl : lookupA n fs.tempFiles = some c) :
    readLoop d (n :: rest) fs
      = (readUnit c
            ++ (readLoop d rest
                (if d then { fs with tempFiles := eraseA n fs.tempFiles } else fs)).1,
          (readLoop d rest
            (if d then { fs with tempFiles := eraseA n fs.tempFiles } else fs)).2) := by
  rw [readLoop, hl]

theorem readLoop_cons_none {α : Type} {d : Bool} {n : Name} {rest : List Name}
    {fs : FS α} (hl : lookupA n fs.tempFiles = none) :
    readLoop d (n :: rest) fs = readLoop d rest fs := by
  rw [readLoop, hl]

/-- On a duplicate-free name list, the records accumulated by the read loop
are the concatenation, in list order, of each listed unit's parseable
records (in line order); a listed name absent from the directory
contributes nothing. -/
theorem readLoop_entries {α : Type} (d : Bool) : ∀ (names : List Name) (fs : FS α),
    names.Nodup →
    (readLoop d names fs).1
      = (names.map (fun n => readUnit ((lookupA n fs.tempFiles).getD []))).flatten := by
  intro names
  induction names with
  | nil => intro fs _; rfl
  | cons n rest ih =>
    intro fs hnd
    rcases List.nodup_cons.mp hnd with ⟨hn, hrest⟩
    cases hl : lookupA n fs.tempFiles with
    | none =>
      rw [readLoop_cons_none hl, ih fs hrest]
      simp [hl, readUnit]
    | some c =>
      rw [readLoop_cons_some hl]
      rw [List.map_cons, List.flatten_cons, hl, Option.getD_some]
      cases d with
      | true =>
        have hmap : rest.map
              (fun m => readUnit ((lookupA m (eraseA n fs.tempFiles)).getD []))
            = rest.map (fun m => readUnit ((lookupA m fs.tempFiles).getD [])) := by
          apply List.map_congr_left
          intro m hm
          rw [lookupA_eraseA_ne _ (fun he : m = n => hn (he ▸ hm))]
        simp only [if_pos rfl, if_true]
        rw [ih { fs with tempFiles := eraseA n fs.tempFiles } hrest]
        simp only [hmap]
      | false =>
        simp only [Bool.false_eq_true, if_false]
        rw [ih fs hrest]

/-- When every unit file in the directory has no parseable line, the read
loop accumulates nothing. -/
theorem readLoop_entries_nil {α : Type} (d : Bool) : ∀ (names : List Name) (fs : FS α),
    (∀ p ∈ fs.tempFiles, readUnit p.2 = ([] : List α)) →
    (readLoop d names fs).1 = [] := by
  intro names
  induction names with
  | nil => intro fs _; rfl
  | cons n rest ih =>
    intro fs hall
    cases hl : lookupA n fs.tempFiles with
    | none => rw [readLoop_cons_none hl]; exact ih fs hall
    | some c =>
      have hc : readUnit c = [] := hall (n, c) (lookupA_mem hl)
      rw [readLoop_cons_some hl]
      cases d with
      | true =>
        simp only [if_pos rfl, if_true]
        rw [ih { fs with tempFiles := eraseA n fs.tempFiles }
            (fun p hp => hall p (List.mem_of_mem_filter hp)), hc]
        rfl
      | false =>
        simp only [Bool.false_eq_true, if_false]
        rw [ih fs hall, hc]
        rfl

-- ---------------------------------------------------------------------------
-- Lemmas: the writer and the flush path.
-- ---------------------------------------------------------------------------

/-- One unit write never touches the in-memory buffer or the stop event, and
always leaves the counter incremented (the increment precedes the `try`). -/
theorem write_state {α : Type} (out : WriteOutcome) (entries : List α) (s : MState α) :
    (write_temp_file_atomic out entries s).2.buffer = s.buffer ∧
      (write_temp_file_atomic out entries s).2.stopSet = s.stopSet ∧
      (write_temp_file_atomic out entries s).2.counter = s.counter + 1 := by
  cases out <;> simp [write_temp_file_atomic, setTmp, delTmp, renameTmpToUnit]

/-- The writer propagates an exception exactly for the fatal outcomes
(serialization/write, rename, post-rename); fsync failures are swallowed. -/
theorem write_error_iff {α : Type} (out : WriteOutcome) (entries : List α) (s : MState α) :
    (write_temp_file_atomic out entries s).1 = .error () ↔ out.fatal = true := by
  cases out <;> simp [write_temp_file_atomic, WriteOutcome.fatal]

theorem flush_locked_stopSet {α : Type} (env : FlushEnv α) (s : MState α) :
    (flush_locked env s).stopSet = s.stopSet := by
  rw [flush_locked]
  split
  · rfl
  · have hw : ∀ t : MState α, t.stopSet = s.stopSet →
        (attemptWrite env s.buffer t).stopSet = s.stopSet := by
      intro t ht
      rw [attemptWrite]
      have hst := (write_state env.writeOut s.buffer t).2.1
      cases hres : write_temp_file_atomic env.writeOut s.buffer t with
      | mk r t' =>
        rw [hres] at hst
        cases r
        · exact hst.trans ht
        · simpa using hst.trans ht
    split
    · exact hw _ rfl
    · split
      · exact hw _ rfl
      · rfl

-- ---------------------------------------------------------------------------
-- Claims.
-- ---------------------------------------------------------------------------

/-- C1: the claim (abort with sources untouched when disk space stays low)
fails on the code; the code has the operations in the wrong order.  At the
concrete failing input — two unit files of one record each, both disk-space
checks low, cleanup freeing nothing, `delete_sources=true` — `_combine_files`
aborts without writing a bundle (result `none`, `bundles = []`), but the
source Numbered Unit files have ALREADY been deleted during the read loop
(`tempFiles = []`), so both records are silently discarded, contradicting
the claim and spec §7(c) ("state preserved (buffer or units untouched) ...
never silently discards data"). -/
theorem c1_combine_low_space_discards_sources :
    combine_files cenvLow ["000001.jsonl".data, "000002.jsonl".data] true fsTwoUnits
      = (none, { tempFiles := [], tmps := [], bundles := [] }) := by
  rfl

/-- Helper for C2: under a failing environment (fatal write exception, or
low disk space persisting after cleanup) a flush leaves the buffer exactly
as it was: the snapshot is restored to the front, in order. -/
theorem flush_locked_buffer_on_failure {α : Type} (env : FlushEnv α)
    (hfail : env.writeOut.fatal = true ∨ (env.okBefore = false ∧ env.okAfter = false))
    (s : MState α) : (flush_locked env s).buffer = s.buffer := by
  have hw : ∀ t : MState α, env.writeOut.fatal = true →
      (attemptWrite env s.buffer t).buffer = s.buffer ++ t.buffer := by
    intro t hfatal
    rw [attemptWrite]
    have hst := (write_state env.writeOut s.buffer t).1
    have herr := (write_error_iff env.writeOut s.buffer t).mpr hfatal
    cases hres : write_temp_file_atomic env.writeOut s.buffer t with
    | mk r t' =>
      rw [hres] at hst herr
      cases r with
      | ok _ => cases herr
      | error _ => simpa using hst
  rw [flush_locked]
  split
  · rfl
  · split
    · rcases hfail with hfatal | ⟨hb, _⟩
      · rw [hw _ hfatal]; simp
      · simp_all
    · split
      · rcases hfail with hfatal | ⟨_, ha⟩
        · rw [hw _ hfatal]; simp
        · simp_all
      · simp

/-- C2: on any failed flush attempt — a fatal exception from the unit write,
or disk space still low after emergency cleanup — the snapshotted batch is
returned to the front of the buffer in its original order, so the buffer is
exactly what it was and no record is dropped; and `add_entry` (which wraps
its synchronous flush in a try/except, modelled by `add_entry` being a total
function) leaves the producer's record appended, never raising. -/
theorem c2_flush_failure_restores_buffer {α : Type} (cfg : Config) (env : FlushEnv α)
    (s : MState α) (a : α) (_hne : s.buffer ≠ [])
    (hfail : env.writeOut.fatal = true ∨ (env.okBefore = false ∧ env.okAfter = false)) :
    (flush_locked env s).buffer = s.buffer ∧
      (add_entry cfg env a s).buffer = s.buffer ++ [a] := by
  refine ⟨flush_locked_buffer_on_failure env hfail s, ?_⟩
  rw [add_entry]
  split
  · exact flush_locked_buffer_on_failure env hfail { s with buffer := s.buffer ++ [a] }
  · rfl

/-- C2 witness: a one-record buffer, a rename failure: the flush restores
the buffer and `add_entry` appends without raising. -/
theorem c2_witness :
    (flush_locked envFailRename sOneRecord).buffer = [5] ∧
      (add_entry { maxBufferSize := 1 } envFailRename 7 sOneRecord).buffer = [5, 7] :=
  c2_flush_failure_restores_buffer { maxBufferSize := 1 } envFailRename sOneRecord 7
    (by decide) (Or.inl rfl)

/-- C3: when the stop event is already set as `close()` is entered — in
particular after `ShutdownManager.stop_all` set the shared event before
invoking the registered `close` callback — `close()` returns at once: no
final flush, no thread join, and the state (buffered records included) is
exactly as before, un-persisted. -/
theorem c3_close_noop_when_stopped {α : Type} (env : FlushEnv α) (s t : MState α)
    (h : s.stopSet = true) :
    close env s = (s, false, false) ∧
      stop_all_then_close env t = ({ t with stopSet := true }, false, false) := by
  constructor
  · rw [close, if_pos h]
  · rw [stop_all_then_close, close, if_pos rfl]

/-- C3 witness: a manager holding one buffered record with the stop event
set, and another with two buffered records reached through `stop_all`. -/
theorem c3_witness :
    close (envOK : FlushEnv Nat)
        { buffer := [9], counter := 0, stopSet := true, fs := fsEmpty }
      = ({ buffer := [9], counter := 0, stopSet := true, fs := fsEmpty }, false, false) ∧
    stop_all_then_close (envOK : FlushEnv Nat)
        { buffer := [4, 8], counter := 2, stopSet := false, fs := fsEmpty }
      = ({ buffer := [4, 8], counter := 2, stopSet := true, fs := fsEmpty }, false, false) :=
  c3_close_noop_when_stopped envOK
    { buffer := [9], counter := 0, stopSet := true, fs := fsEmpty }
    { buffer := [4, 8], counter := 2, stopSet := false, fs := fsEmpty } rfl

set_option maxHeartbeats 4000000 in
/-- C6: with `max_buffer_size=2` over an empty temp directory, the second
`add_entry` triggers an immediate synchronous flush producing unit
`000001.jsonl` holding exactly the first two records in insertion order;
the third record stays buffered with the disk unchanged; `close()` then
produces `000002.jsonl` holding exactly the third record. -/
theorem c6_three_records_scenario {α : Type} (r1 r2 r3 : α) :
    unitName 1 = "000001.jsonl".data ∧
    unitName 2 = "000002.jsonl".data ∧
    (scenario1 r1).buffer = [r1] ∧ (scenario1 r1).fs.tempFiles = [] ∧
    (scenario2 r1 r2).buffer = [] ∧
    (scenario2 r1 r2).fs.tempFiles = [(unitName 1, [.record r1, .record r2])] ∧
    (scenario3 r1 r2 r3).buffer = [r3] ∧
    (scenario3 r1 r2 r3).fs.tempFiles = (scenario2 r1 r2).fs.tempFiles ∧
    (scenario4 r1 r2 r3).buffer = [] ∧
    lookupA (unitName 2) (scenario4 r1 r2 r3).fs.tempFiles = some [.record r3] ∧
    lookupA (unitName 1) (scenario4 r1 r2 r3).fs.tempFiles
      = some [.record r1, .record r2] :=
  ⟨rfl, rfl, rfl, rfl, rfl, rfl, rfl, rfl, rfl, rfl, rfl⟩

/-- C7: `close()` is idempotent: whatever the manager's state and whatever
environment the second call runs under, calling `close()` again after a
first call returns the state of the first call unchanged — no error, no
additional flush, no thread join, no new Numbered Unit. -/
theorem c7_close_idempotent {α : Type} (env env' : FlushEnv α) (s : MState α) :
    close env' (close env s).1 = ((close env s).1, false, false) := by
  have hstop : (close env s).1.stopSet = true := by
    rw [close]
    split
    · assumption
    · simpa using flush_locked_stopSet env { s with stopSet := true }
  rw [close, if_pos hstop]

/-- C4 counterexample: an exception at the `os.fsync` of the temp file is
NOT propagated to the caller — it is caught and logged as non-fatal, the
write continues, and the unit is committed under its final name — refuting
the claim that every exception raised at any point of a unit write
(fsync included) propagates. -/
theorem c4_counterexample :
    (write_temp_file_atomic .failFsyncFile ([0] : List Nat) (initState [])).1 = .ok () ∧
      lookupA (unitName 1)
          (write_temp_file_atomic .failFsyncFile ([0] : List Nat)
            (initState [])).2.fs.tempFiles
        = some [.record 0] :=
  ⟨rfl, rfl⟩

/-- C4 amended: for every record sequence and every exception during
serialization/write, rename, or after the rename, the final `.jsonl` name
never holds partially written content (given a fresh final name it is absent
or holds the complete record sequence), the dot-prefixed temporary is not
left behind, and the exception propagates to the caller; an exception at
either fsync, however, is swallowed as best-effort and the write completes
normally. -/
theorem c4_write_atomic_amended {α : Type} (out : WriteOutcome) (entries : List α)
    (s : MState α)
    (hfresh : lookupA (unitName (s.counter + 1)) s.fs.tempFiles = none) :
    (lookupA (unitName (s.counter + 1))
          (write_temp_file_atomic out entries s).2.fs.tempFiles = none ∨
        lookupA (unitName (s.counter + 1))
          (write_temp_file_atomic out entries s).2.fs.tempFiles
          = some (entries.map .record)) ∧
      lookupA (tmpName (s.counter + 1))
          (write_temp_file_atomic out entries s).2.fs.tmps = none ∧
      ((write_temp_file_atomic out entries s).1 = .error () ↔ out.fatal = true) := by
  refine ⟨?_, ?_, write_error_iff out entries s⟩
  · cases out <;>
      simp [write_temp_file_atomic, setTmp, delTmp, renameTmpToUnit, lookupA, hfresh,
        lookupA_eraseA_self]
  · cases out <;>
      simp [write_temp_file_atomic, setTmp, delTmp, renameTmpToUnit, lookupA,
        lookupA_eraseA_self]

/-- C4 witness: a rename failure over a one-record batch and an empty
directory: no unit appears under the final name, the temporary is cleaned
up, and the exception propagates. -/
theorem c4_witness :
    (lookupA (unitName 1)
          (write_temp_file_atomic .failRename [3] (initState [])).2.fs.tempFiles
          = none ∨
        lookupA (unitName 1)
          (write_temp_file_atomic .failRename [3] (initState [])).2.fs.tempFiles
          = some [.record 3]) ∧
      lookupA (tmpName 1)
          (write_temp_file_atomic .failRename [3] (initState [])).2.fs.tmps = none ∧
      ((write_temp_file_atomic .failRename [3] (initState [])).1 = .error ()
        ↔ WriteOutcome.fatal .failRename = true) :=
  c4_write_atomic_amended .failRename ([3] : List Nat) (initState []) rfl

/-- C8: the counter is seeded with the maximum integer index over the
existing digit-stem `.jsonl` files (0 when there are none); consequently
every existing unit index is at most the seeded counter, the next unit name
`unitName (counter+1)` collides with no existing file, the writer increments
the counter on every attempt (so successive units within a run carry
strictly increasing indices), and a successful write commits exactly under
`unitName (counter+1)`. -/
theorem c8_counter_seeding {α : Type} (files : List Name) (out : WriteOutcome)
    (entries : List α) (s : MState α) (hc : s.counter = init_temp_counter files) :
    init_temp_counter files = (files.filterMap fileIndex?).foldl Nat.max 0 ∧
      (∀ f ∈ files, ∀ v, fileIndex? f = some v → v ≤ s.counter) ∧
      (∀ f ∈ files, f ≠ unitName (s.counter + 1)) ∧
      (write_temp_file_atomic out entries s).2.counter = s.counter + 1 ∧
      lookupA (unitName (s.counter + 1))
          (write_temp_file_atomic .success entries s).2.fs.tempFiles
        = some (entries.map .record) := by
  have hmax : init_temp_counter files = (files.filterMap fileIndex?).foldl Nat.max 0 :=
    init_temp_counter_eq_max files
  have hbound : ∀ f ∈ files, ∀ v, fileIndex? f = some v → v ≤ s.counter := by
    intro f hf v hv
    have hvmem : v ∈ files.filterMap fileIndex? := List.mem_filterMap.mpr ⟨f, hf, hv⟩
    rw [hc, hmax]
    exact foldl_max_bound hvmem 0
  refine ⟨hmax, hbound, ?_, (write_state out entries s).2.2, ?_⟩
  · intro f hf he
    have hidx : fileIndex? f = some (s.counter + 1) := by
      rw [he, fileIndex?_unitName]
    have := hbound f hf (s.counter + 1) hidx
    omega
  · simp [write_temp_file_atomic, setTmp, renameTmpToUnit, lookupA, lookupA_eraseA_self]

/-- C8 witness: a directory holding `000003.jsonl` and `junk.txt` seeds the
counter at 3; the next unit is `000004.jsonl`, fresh and committed there. -/
theorem c8_witness :
    init_temp_counter ["000003.jsonl".data, "junk.txt".data]
        = ((["000003.jsonl".data, "junk.txt".data] : List Name).filterMap
            fileIndex?).foldl Nat.max 0 ∧
      (∀ f ∈ (["000003.jsonl".data, "junk.txt".data] : List Name),
        ∀ v, fileIndex? f = some v →
          v ≤ (MState.mk ([] : List Nat) (init_temp_counter
                ["000003.jsonl".data, "junk.txt".data]) false fsEmpty).counter) ∧
      (∀ f ∈ (["000003.jsonl".data, "junk.txt".data] : List Name),
        f ≠ unitName ((MState.mk ([] : List Nat) (init_temp_counter
                ["000003.jsonl".data, "junk.txt".data]) false fsEmpty).counter + 1)) ∧
      (write_temp_file_atomic .success [5]
          (MState.mk ([] : List Nat) (init_temp_counter
            ["000003.jsonl".data, "junk.txt".data]) false fsEmpty)).2.counter
        = (MState.mk ([] : List Nat) (init_temp_counter
            ["000003.jsonl".data, "junk.txt".data]) false fsEmpty).counter + 1 ∧
      lookupA (unitName ((MState.mk ([] : List Nat) (init_temp_counter
            ["000003.jsonl".data, "junk.txt".data]) false fsEmpty).counter + 1))
          (write_temp_file_atomic .success [5]
            (MState.mk ([] : List Nat) (init_temp_counter
              ["000003.jsonl".data, "junk.txt".data]) false fsEmpty)).2.fs.tempFiles
        = some [.record 5] :=
  c8_counter_seeding ["000003.jsonl".data, "junk.txt".data] .success [5]
    (MState.mk ([] : List Nat)
      (init_temp_counter ["000003.jsonl".data, "junk.txt".data]) false fsEmpty) rfl

/-- C10 counterexample: a `204` response is a 2xx success by the claim's own
classification, yet `try_send` keeps the local bundle file (the code deletes
only on `status_code == 200`), refuting "on reported success the local
bundle file is deleted". -/
theorem c10_counterexample :
    (200 ≤ 204 ∧ 204 < 300) ∧
      try_send (.status 204) ["option_data_bundle_t.json".data]
          "option_data_bundle_t.json".data
        = ["option_data_bundle_t.json".data] :=
  ⟨⟨by omega, by omega⟩, rfl⟩

/-- C10 amended: on a `200` response the local bundle file is deleted; on
any other status code (other 2xx codes included) and on any network
exception or timeout the file is left in place; in no case does `try_send`
(a total function: its body is one `try/except` catching everything)
propagate an exception to its caller. -/
theorem c10_try_send_amended (out : SendOutcome) (files : List Name) (fp : Name) :
    (out = .status 200 → try_send out files fp = files.filter (fun n => n ≠ fp)) ∧
      (∀ code, out = .status code → code ≠ 200 → try_send out files fp = files) ∧
      (out = .exn → try_send out files fp = files) := by
  refine ⟨?_, ?_, ?_⟩
  · rintro rfl
    simp [try_send]
  · rintro code rfl hne
    rw [try_send, if_neg hne]
  · rintro rfl
    rfl

/-- C10 witness: a 200 response deletes exactly the sent bundle; an
exception keeps it. -/
theorem c10_witness :
    try_send (.status 200) ["a.json".data, "b.json".data] "a.json".data
        = (["a.json".data, "b.json".data] : List Name).filter
            (fun n => n ≠ "a.json".data) ∧
      try_send .exn ["a.json".data] "a.json".data = ["a.json".data] :=
  ⟨(c10_try_send_amended (.status 200) ["a.json".data, "b.json".data]
      "a.json".data).1 rfl,
    (c10_try_send_amended .exn ["a.json".data] "a.json".data).2.2 rfl⟩

/-- C9: combining nothing is a no-op — an empty file list returns `none`
with the state untouched; when every line of the given units fails to parse
the accumulated record list is empty, so `_combine_files` returns `none`
and creates no bundle file; and on an empty temp directory both
`combine_temp_files` and `combine_and_rotate` return with no file created
and no upload queued. -/
theorem c9_empty_combine_noop {α : Type} (env : CombineEnv α) (d : Bool)
    (names : List Name) (fs fs0 fsE : FS α) (lim : Nat)
    (hall : ∀ p ∈ fs.tempFiles, readUnit p.2 = ([] : List α))
    (hE : fsE.tempFiles = []) :
    combine_files env [] d fs0 = (none, fs0) ∧
      (combine_files env names true fs).1 = none ∧
      (combine_files env names true fs).2.bundles = fs.bundles ∧
      combine_temp_files env fsE = (none, fsE) ∧
      combine_and_rotate env lim fsE = (none, fsE) := by
  have hsortE : sortList (fsE.tempFiles.map Prod.fst) = [] := by rw [hE]; rfl
  refine ⟨rfl, ?_, ?_, ?_, ?_⟩
  · by_cases hne : names.isEmpty = true
    · rw [combine_files, if_pos hne]
    · rw [combine_files, if_neg hne]
      simp [readLoop_entries_nil true names fs hall]
  · by_cases hne : names.isEmpty = true
    · rw [combine_files, if_pos hne]
    · rw [combine_files, if_neg hne]
      simp [readLoop_entries_nil true names fs hall,
        (readLoop_bundles_tmps true names fs).1]
  · rw [combine_temp_files]
    simp [hsortE]
  · rw [combine_and_rotate]
    simp [hsortE]

/-- C9 witness: the empty directory, and a directory whose only unit holds
one corrupt and one blank line. -/
theorem c9_witness :
    combine_files cenvOK [] true fsEmpty = (none, fsEmpty) ∧
      (combine_files cenvOK ["000001.jsonl".data] true fsCorrupt).1 = none ∧
      (combine_files cenvOK ["000001.jsonl".data] true fsCorrupt).2.bundles
        = fsCorrupt.bundles ∧
      combine_temp_files cenvOK fsEmpty = (none, fsEmpty) ∧
      combine_and_rotate cenvOK 100 fsEmpty = (none, fsEmpty) :=
  c9_empty_combine_noop cenvOK true ["000001.jsonl".data] fsCorrupt fsEmpty fsEmpty 100
    (by decide) rfl

/-- C5: whenever `combine_temp_files` succeeds (returns a bundle), and the
temp directory's names are distinct (as directory listings are), the bundle
holds exactly the concatenation of the parseable records of the source
units in sorted filename order, and within each unit in line order —
blank and unparseable lines are skipped without aborting the combine, so
the remaining records are all included. -/
theorem c5_bundle_content {α : Type} (env : CombineEnv α) (fs : FS α) (p : Name)
    (hnd : (fs.tempFiles.map Prod.fst).Nodup)
    (h : (combine_temp_files env fs).1 = some p) :
    lookupA p (combine_temp_files env fs).2.bundles = some (bundleSpec fs) := by
  have hndn : (sortList (fs.tempFiles.map Prod.fst)).Nodup := nodup_sortList hnd
  have hentries : (readLoop true (sortList (fs.tempFiles.map Prod.fst)) fs).1
      = bundleSpec fs :=
    readLoop_entries true (sortList (fs.tempFiles.map Prod.fst)) fs hndn
  simp only [combine_temp_files] at h ⊢
  by_cases hne : (sortList (fs.tempFiles.map Prod.fst)).isEmpty = true
  · rw [if_pos hne] at h
    exact absurd h (by simp)
  · rw [if_neg hne] at h ⊢
    simp only [combine_files, if_neg hne] at h ⊢
    by_cases hre : (readLoop true (sortList (fs.tempFiles.map Prod.fst)) fs).1.isEmpty = true
    · rw [if_pos hre] at h
      exact absurd h (by simp)
    · rw [if_neg hre] at h ⊢
      by_cases hb : env.okBefore = true
      · rw [if_pos hb] at h ⊢
        simp only [writeBundle] at h ⊢
        by_cases hw : env.writeOk = true
        · rw [if_pos hw] at h ⊢
          have hp : env.bundleName = p := by simpa using h
          subst hp
          simp [lookupA, hentries]
        · rw [if_neg hw] at h
          exact absurd h (by simp)
      · rw [if_neg hb] at h ⊢
        by_cases ha : env.okAfter = true
        · rw [if_pos ha] at h ⊢
          simp only [writeBundle] at h ⊢
          by_cases hw : env.writeOk = true
          · rw [if_pos hw] at h ⊢
            have hp : env.bundleName = p := by simpa using h
            subst hp
            simp [lookupA, hentries]
          · rw [if_neg hw] at h
            exact absurd h (by simp)
        · rw [if_neg ha] at h
          exact absurd h (by simp)

/-- C5 witness: two units — `000001.jsonl` with a record and a corrupt
line, `000002.jsonl` with a blank line and a record — combine into a bundle
holding exactly `[1, 2]`, in filename/line order. -/
theorem c5_witness :
    lookupA cenvOK.bundleName (combine_temp_files cenvOK fsMixed).2.bundles
        = some (bundleSpec fsMixed) ∧
      bundleSpec fsMixed = [1, 2] :=
  ⟨c5_bundle_content cenvOK fsMixed cenvOK.bundleName (by decide) rfl, by decide⟩

end OptionsShared
